import Mathlib

/-!
Verification of the Valiant key-value server: a shallow embedding of the
RESP value model, frame decoder, connection driver and command dispatcher
(src/resp.rs, src/main.rs, src/store.rs), together with theorems settling
the specification's claims about them.

Modelling conventions:
* Rust `String` / byte buffers are `List Nat` (byte values; a Rust `String`
  is its UTF-8 byte sequence).
* `usize` arithmetic that can genuinely wrap (the `i64 as usize` cast and
  the `end_of_bulk` / `end_of_bulk_line` sums fed by it) is taken modulo
  2^64, matching release-mode wrapping semantics.  Additions whose operands
  are both bounded by the buffer's length (`len + 1`, the running
  `bytes_consumed += len` of `decode_array`) are exact `Nat` additions,
  since a Rust buffer's length always fits in `usize`.
* A Rust panic (out-of-bounds index or slice, `unwrap` on `None`,
  `panic!`) is an explicit outcome: `DecodeOutcome.panic`,
  `CommandResult.panicked`, `DispatchResult.panicked`, or `encode`
  returning `none`.
* `Result<Option<(Value, usize)>>` becomes `DecodeOutcome`:
  `Ok(Some((v, n)))` is `.done v n`, `Ok(None)` is `.incomplete`,
  `Err(e)` is `.fails e`.
* The recursion of `parse_message` through `decode_array` is fuelled:
  `parse_message_fuel` burns one unit of fuel per nesting level, and
  `parse_message` supplies `buffer.length + 1` units, which is always
  sufficient because every sub-decode of an array element starts at least
  one byte into the buffer handed to the enclosing decode
  (`parse_message_fuel_irrel` makes the fuel-independence precise).
-/

/-- Byte values of the characters used by the wire protocol. -/
def CARRIAGE_RETURN : Nat := 13

/-- Byte value of the newline character. -/
def NEWLINE : Nat := 10

/-- Helper turning an ASCII string literal into its byte list. -/
def ascii (s : String) : List Nat := s.toList.map Char.toNat

/-- The protocol value model (`enum Value` of src/resp.rs).  `Null` is the
absence marker, `SimpleString` a status line, `Error` an error message,
`BulkString` a length-prefixed payload string, `Seq` the array variant
(`Value::Array`). -/
inductive Value where
  | Null : Value
  | SimpleString : List Nat → Value
  | Error : List Nat → Value
  | BulkString : List Nat → Value
  | Seq : List Value → Value

/-- True exactly on the array (`Seq`) variant. -/
def Value.isSeq : Value → Bool
  | .Seq _ => true
  | _ => false

mutual
/-- Recursively: does the value contain the `Null` marker anywhere? -/
def valueHasNull : Value → Bool
  | .Null => true
  | .SimpleString _ => false
  | .Error _ => false
  | .BulkString _ => false
  | .Seq items => listHasNull items

def listHasNull : List Value → Bool
  | [] => false
  | v :: rest => valueHasNull v || listHasNull rest
end

/-- Outcome of a decode attempt: `done v bytes_consumed` for
`Ok(Some((v, n)))`, `incomplete` for `Ok(None)`, `fails` for `Err`, and
`panic` for a Rust panic (out-of-bounds index or slice). -/
inductive DecodeOutcome where
  | done : Value → Nat → DecodeOutcome
  | incomplete : DecodeOutcome
  | fails : String → DecodeOutcome
  | panic : DecodeOutcome

/-- `read_until_crlf` of src/resp.rs: scan for the first adjacent
carriage-return/newline pair (the Rust loop `for i in 1..buffer.len()`
testing `buffer[i-1] == CARRIAGE_RETURN && buffer[i] == NEWLINE`); on a hit
at position `i` it returns the bytes strictly before the pair together with
`i + 1`, the index just past the pair. -/
def read_until_crlf : List Nat → Option (List Nat × Nat)
  | a :: b :: rest =>
    if a = CARRIAGE_RETURN ∧ b = NEWLINE then some ([], 2)
    else
      match read_until_crlf (b :: rest) with
      | some (line, len) => some (a :: line, len + 1)
      | none => none
  | _ => none

/-- Does the byte list contain an adjacent CRLF pair? -/
def hasCRLF : List Nat → Bool
  | a :: b :: rest => (a = CARRIAGE_RETURN && b = NEWLINE) || hasCRLF (b :: rest)
  | _ => false

mutual
/-- UTF-8 validity of a byte list, as checked by Rust's
`String::from_utf8` (RFC 3629 table: no overlong forms, no surrogates,
four-byte max).  The first byte picks the admissible range of the next
byte and how many continuation bytes follow. -/
def validUtf8 : List Nat → Bool
  | [] => true
  | b :: rest =>
    if b < 128 then validUtf8 rest
    else if 194 ≤ b && b ≤ 223 then validTail1 128 191 rest
    else if b = 224 then validTail2 160 191 rest
    else if (225 ≤ b && b ≤ 236) || b = 238 || b = 239 then validTail2 128 191 rest
    else if b = 237 then validTail2 128 159 rest
    else if b = 240 then validTail3 144 191 rest
    else if 241 ≤ b && b ≤ 243 then validTail3 128 191 rest
    else if b = 244 then validTail3 128 143 rest
    else false

/-- One byte in `[lo, hi]`, then a fresh character. -/
def validTail1 (lo hi : Nat) : List Nat → Bool
  | c :: rest => (lo ≤ c && c ≤ hi) && validUtf8 rest
  | [] => false

/-- One byte in `[lo, hi]`, then one continuation byte, then a fresh
character. -/
def validTail2 (lo hi : Nat) : List Nat → Bool
  | c :: rest => (lo ≤ c && c ≤ hi) && validTail1 128 191 rest
  | [] => false

/-- One byte in `[lo, hi]`, then two continuation bytes, then a fresh
character. -/
def validTail3 (lo hi : Nat) : List Nat → Bool
  | c :: rest => (lo ≤ c && c ≤ hi) && validTail2 128 191 rest
  | [] => false
end

/-- `parse_string` of src/resp.rs: `String::from_utf8(bytes.to_vec())`,
returning the same bytes when they are valid UTF-8 and the error message
otherwise. -/
def parse_string (bytes : List Nat) : Except String (List Nat) :=
  if validUtf8 bytes then .ok bytes else .error ("Could not parse string")

/-- Is the byte an ASCII decimal digit? -/
def isDigitByte (b : Nat) : Bool := 48 ≤ b && b ≤ 57

/-- Numeric value of a digit-byte list, most significant first. -/
def digitsVal (l : List Nat) : Nat :=
  l.foldl (fun acc b => acc * 10 + (b - 48)) 0

/-- Value of a nonempty all-digit byte list, `none` otherwise. -/
def digitsToNat? (l : List Nat) : Option Nat :=
  if l ≠ [] ∧ l.all isDigitByte then some (digitsVal l) else none

/-- The i64 range check of Rust `str::parse::<i64>`: a parse that
overflows the i64 range fails. -/
def i64Clamp : Option Int → Option Int
  | none => none
  | some v => if -(2 ^ 63) ≤ v ∧ v ≤ 2 ^ 63 - 1 then some v else none

/-- Rust `str::parse::<i64>`, continued: sign handling.  A leading `+`
(byte 43) or `-` (byte 45) is stripped and the remaining digits parsed;
otherwise the whole string must be digits. -/
def i64FromStr (s : List Nat) : Option Int :=
  i64Clamp (match s with
    | [] => none
    | b :: rest =>
      if b = 43 then (digitsToNat? rest).map (fun m => (m : Int))
      else if b = 45 then (digitsToNat? rest).map (fun m => -(m : Int))
      else (digitsToNat? s).map (fun m => (m : Int)))

/-- `parse_integer` of src/resp.rs: `parse_string` then
`str::parse::<i64>`. -/
def parse_integer (bytes : List Nat) : Except String Int :=
  match parse_string bytes with
  | .error e => .error e
  | .ok s =>
    match i64FromStr s with
    | none => .error ("Could not parse integer")
    | some v => .ok v

/-- The `usize` modulus. -/
def USIZE : Nat := 2 ^ 64

/-- The Rust cast `(n : i64) as usize`: two's-complement reinterpretation,
i.e. the representative of `n` modulo 2^64. -/
def usizeOfI64 (n : Int) : Nat := (n % (USIZE : Int)).toNat

/-- `decode_simple_string` of src/resp.rs.  Faithful to the source: the
branch that finds a CRLF-terminated line parses it and then returns
`Ok(None)` (the comment above that line announces a `SimpleString` but the
code discards it); the source has no else branch at all, modelled as
`Ok(None)` as well.  The leading `&buffer[1..]` slice panics on an empty
buffer. -/
def decode_simple_string (buffer : List Nat) : DecodeOutcome :=
  if buffer.length < 1 then .panic
  else
    match read_until_crlf (buffer.drop 1) with
    | some (line, _len) =>
      match parse_string line with
      | .error e => .fails e
      | .ok _str => .incomplete
    | none => .incomplete

/-- `decode_bulk_string` of src/resp.rs.  The length line is parsed as an
`i64`, cast to `usize`, and used to locate the end of the payload; the
slice `&buffer[bytes_consumed..end_of_bulk]` panics when its bounds are
reversed or past the end of the buffer. -/
def decode_bulk_string (buffer : List Nat) : DecodeOutcome :=
  if buffer.length < 1 then .panic
  else
    match read_until_crlf (buffer.drop 1) with
    | none => .incomplete
    | some (line, len) =>
      match parse_integer line with
      | .error e => .fails e
      | .ok bulk_length =>
        let bytes_consumed := len + 1
        let end_of_bulk := (bytes_consumed + usizeOfI64 bulk_length) % USIZE
        let end_of_bulk_line := (end_of_bulk + 2) % USIZE
        if end_of_bulk_line ≤ buffer.length then
          if bytes_consumed ≤ end_of_bulk ∧ end_of_bulk ≤ buffer.length then
            match parse_string ((buffer.drop bytes_consumed).take
                (end_of_bulk - bytes_consumed)) with
            | .error e => .fails e
            | .ok s => .done (.BulkString s) end_of_bulk_line
          else .panic
        else .incomplete

/-- The element loop of `decode_array` (`for _ in 0..array_length`): each
iteration re-slices the original buffer at the running `bytes_consumed`
(`&buffer[bytes_consumed..]` panics when the start index is past the end)
and hands it to `parse_message`, threaded here as the function argument
`pm`.  Decoded values are pushed onto `items`. -/
def decode_elems (pm : List Nat → DecodeOutcome) (buffer : List Nat) :
    Nat → Nat → List Value → DecodeOutcome
  | 0, bytes_consumed, items => .done (.Seq items) bytes_consumed
  | k + 1, bytes_consumed, items =>
    if bytes_consumed ≤ buffer.length then
      match pm (buffer.drop bytes_consumed) with
      | .done v len => decode_elems pm buffer k (bytes_consumed + len) (items ++ [v])
      | .incomplete => .incomplete
      | .fails e => .fails e
      | .panic => .panic
    else .panic

/-- `decode_array` of src/resp.rs: read the count line, then run the
element loop.  A negative count gives zero iterations
(`for _ in 0..array_length` over an `i64`), hence `Int.toNat`.  The
recursive `parse_message` is passed in as `pm`. -/
def decode_array (pm : List Nat → DecodeOutcome) (buffer : List Nat) : DecodeOutcome :=
  if buffer.length < 1 then .panic
  else
    match read_until_crlf (buffer.drop 1) with
    | none => .incomplete
    | some (line, len) =>
      match parse_integer line with
      | .error e => .fails e
      | .ok array_length => decode_elems pm buffer array_length.toNat (len + 1) []

/-- `parse_message` of src/resp.rs, fuelled: `buffer[0]` panics on an
empty buffer; otherwise dispatch on the marker byte `+` (43), `*` (42),
`$` (36); anything else is the `unrecognised message type` error.  One
unit of fuel is burnt per array-nesting level; fuel 0 is never reached
when the caller supplies more fuel than the buffer length. -/
def parse_message_fuel : Nat → List Nat → DecodeOutcome
  | 0, _ => .panic
  | fuel + 1, buffer =>
    match buffer with
    | [] => .panic
    | b :: _ =>
      if b = 43 then decode_simple_string buffer
      else if b = 42 then decode_array (parse_message_fuel fuel) buffer
      else if b = 36 then decode_bulk_string buffer
      else .fails ("unrecognised message type")

/-- `parse_message` of src/resp.rs: the fuelled decoder with always
sufficient fuel. -/
def parse_message (buffer : List Nat) : DecodeOutcome :=
  parse_message_fuel (buffer.length + 1) buffer

/-- Count of the characters of a Rust `String` stored as its UTF-8 bytes
(`s.chars().count()`): the bytes that are not continuation bytes. -/
def charsCount (s : List Nat) : Nat :=
  (s.filter (fun b => decide (b < 128) || decide (192 ≤ b))).length

/-- Decimal digit bytes of `n`, most significant first, with fuel. -/
def natToDecBytesAux : Nat → Nat → List Nat
  | 0, _ => []
  | fuel + 1, n =>
    if n < 10 then [48 + n]
    else natToDecBytesAux fuel (n / 10) ++ [48 + n % 10]

/-- Decimal digit bytes of `n`, as produced by Rust's `format!`. -/
def natToDecBytes (n : Nat) : List Nat := natToDecBytesAux (n + 1) n

/-- `Value::encode` of src/resp.rs.  `none` models the
`panic!("value encode not implemented for: ...")` arm reached by the
array variant; every other variant yields its wire bytes.  The bulk
length is `s.chars().count()` — a character count, not a byte count. -/
def encode : Value → Option (List Nat)
  | .Null => some [36, 45, 49, 13, 10]
  | .SimpleString s => some (43 :: (s ++ [13, 10]))
  | .Error msg => some (45 :: (msg ++ [13, 10]))
  | .BulkString s =>
    some (36 :: (natToDecBytes (charsCount s) ++ [13, 10] ++ s ++ [13, 10]))
  | .Seq _ => none

/-- Result of `Value::to_command`: `ok name args` for `Ok((name, args))`,
`err` for the `anyhow` error, `panicked` for the `unwrap` /
`unwrap_bulk` panics. -/
inductive CommandResult where
  | ok : List Nat → List Value → CommandResult
  | err : String → CommandResult
  | panicked : CommandResult

/-- `Value::unwrap_bulk` of src/resp.rs: the payload of a bulk string;
`none` models the `panic!("not a bulk string")` arm. -/
def unwrap_bulk : Value → Option (List Nat)
  | .BulkString s => some s
  | _ => none

/-- `Value::to_command` of src/resp.rs: an array's first element
(`items.first().unwrap()` panics on an empty array; `unwrap_bulk` panics
when it is not a bulk string) becomes the command name, the remaining
elements (`skip(1)`) the arguments; anything but an array is the
`not an array` error. -/
def to_command : Value → CommandResult
  | .Seq items =>
    match items with
    | [] => .panicked
    | first :: rest =>
      match unwrap_bulk first with
      | none => .panicked
      | some cmd => .ok cmd rest
  | _ => .err ("not an array")

/-- The store (src/store.rs): a map from string keys to string values,
modelled as an association list with the `HashMap` insert/lookup/remove
semantics. -/
abbrev Store := List (List Nat × List Nat)

/-- `Store::set`: insert or overwrite. -/
def Store.set (st : Store) (k v : List Nat) : Store :=
  (k, v) :: st.filter (fun p => decide (p.1 ≠ k))

/-- `Store::get`: lookup. -/
def Store.get (st : Store) (k : List Nat) : Option (List Nat) :=
  (st.find? (fun p => decide (p.1 = k))).map Prod.snd

/-- `Store::del`: remove. -/
def Store.del (st : Store) (k : List Nat) : Store :=
  st.filter (fun p => decide (p.1 ≠ k))

/-- Result of one dispatch: the reply value and the updated store, or a
panic (`unwrap` in the `ECHO` arm). -/
inductive DispatchResult where
  | reply : Value → Store → DispatchResult
  | panicked : DispatchResult

/-- Rust `str::to_ascii_lowercase`, bytewise on ASCII uppercase. -/
def toAsciiLowercase (s : List Nat) : List Nat :=
  s.map (fun b => if 65 ≤ b ∧ b ≤ 90 then b + 32 else b)

/-- The command match of `handle_connection` (src/main.rs): the command
name is lowercased with `to_ascii_lowercase` and then matched against the
uppercase patterns `"PING"`, `"ECHO"`, `"GET"`, `"SET"`, `"DEL"`,
`"EXISTS"`; the fallback arm replies
`Error("command not implemented: {command}")` with the original name. -/
def handle_command (command : List Nat) (args : List Value) (st : Store) :
    DispatchResult :=
  let lc := toAsciiLowercase command
  if lc = ascii ("PING") then .reply (.SimpleString (ascii ("PONG"))) st
  else if lc = ascii ("ECHO") then
    match args.head? with
    | none => .panicked
    | some v => .reply v st
  else if lc = ascii ("GET") then
    match args.head? with
    | some (.BulkString key) =>
      match Store.get st key with
      | some val => .reply (.SimpleString val) st
      | none => .reply .Null st
    | _ => .reply (.Error (ascii ("Get requires one argument"))) st
  else if lc = ascii ("SET") then
    match args.head?, (args.drop 1).head? with
    | some (.BulkString key), some (.BulkString v) =>
      .reply (.SimpleString (ascii ("OK"))) (Store.set st key v)
    | _, _ => .reply (.Error (ascii ("Set requires two arguments"))) st
  else if lc = ascii ("DEL") then
    match args.head? with
    | some (.BulkString key) =>
      match Store.get st key with
      | some _ => .reply (.SimpleString (ascii ("DELETED"))) (Store.del st key)
      | none => .reply .Null st
    | _ => .reply (.Error (ascii ("Del requires one argument"))) st
  else if lc = ascii ("EXISTS") then
    match args.head? with
    | some (.BulkString key) =>
      match Store.get st key with
      | some _ => .reply (.SimpleString (ascii ("1"))) st
      | none => .reply (.SimpleString (ascii ("0"))) st
    | _ => .reply (.Error (ascii ("Exists requires one argument"))) st
  else .reply (.Error (ascii ("command not implemented: ") ++ command)) st

/-- Outcome of the `Dispatching` step of `handle_connection` for one
decoded value: a reply to write, a propagated error terminating the
connection (`value.to_command()?`), or a panic. -/
inductive StepResult where
  | reply : Value → Store → StepResult
  | terminated : String → StepResult
  | panicked : StepResult

/-- One `Dispatching` step of `handle_connection` (src/main.rs):
`to_command` — whose error the `?` operator propagates out of
`handle_connection`, ending the connection — followed by the command
match. -/
def handle_value (v : Value) (st : Store) : StepResult :=
  match to_command v with
  | .err e => .terminated e
  | .panicked => .panicked
  | .ok cmd args =>
    match handle_command cmd args st with
    | .panicked => .panicked
    | .reply r st' => .reply r st'

/-- Outcome of `RespConnection::read_value`, together with the contents
of the accumulation buffer when the call returns. -/
inductive ReadResult where
  | value : Value → List Nat → ReadResult
  | closed : List Nat → ReadResult
  | failed : String → List Nat → ReadResult
  | panicked : ReadResult
  | starved : List Nat → ReadResult

/-- `RespConnection::read_value` (src/resp.rs), driven by the list of
chunks the transport will deliver (`[]` in `chunks` is a zero-byte read,
i.e. end of stream; running out of modelled chunks is `starved`).  Each
iteration appends the newly read chunk and calls
`parse_message(self.buffer.split())`: `BytesMut::split` hands the whole
accumulated contents to the parser and leaves the accumulation buffer
empty — the returned `bytes_consumed` is bound to `_` and ignored, so on
every outcome the buffer retained for the next cycle is `[]`. -/
def read_value (buffer : List Nat) : List (List Nat) → ReadResult
  | [] => .starved buffer
  | chunk :: rest =>
    if chunk = [] then .closed buffer
    else
      match parse_message (buffer ++ chunk) with
      | .done v _ => .value v []
      | .incomplete => read_value [] rest
      | .fails e => .failed e []
      | .panic => .panicked

/-! ### Lemmas about `read_until_crlf` -/

@[simp] lemma CARRIAGE_RETURN_eq : CARRIAGE_RETURN = 13 := rfl

@[simp] lemma NEWLINE_eq : NEWLINE = 10 := rfl

lemma hasCRLF_cons_cons {a b : Nat} {t : List Nat} :
    hasCRLF (a :: b :: t) = false ↔ ¬(a = 13 ∧ b = 10) ∧ hasCRLF (b :: t) = false := by
  simp only [hasCRLF, CARRIAGE_RETURN_eq, NEWLINE_eq, Bool.or_eq_false_iff,
    Bool.and_eq_false_iff, decide_eq_false_iff_not]
  tauto

lemma hasCRLF_cons_false {a : Nat} {t : List Nat} (h : hasCRLF (a :: t) = false) :
    hasCRLF t = false := by
  cases t with
  | nil => rfl
  | cons b t' => exact (hasCRLF_cons_cons.mp h).2

lemma hasCRLF_of_no_cr : ∀ l : List Nat, (∀ b ∈ l, b ≠ 13) → hasCRLF l = false
  | [], _ => rfl
  | [_], _ => rfl
  | a :: b :: t, h => by
    rw [hasCRLF_cons_cons]
    refine ⟨fun hc => h a (by simp) hc.1, ?_⟩
    exact hasCRLF_of_no_cr (b :: t) (fun x hx => h x (by simp [hx]))

lemma hasCRLF_take : ∀ (l : List Nat) (m : Nat), hasCRLF l = false →
    hasCRLF (l.take m) = false
  | [], _, _ => by simp [hasCRLF]
  | _ :: _, 0, _ => rfl
  | [a], m + 1, _ => by cases m <;> rfl
  | a :: b :: t, m + 1, h => by
    obtain ⟨h1, h2⟩ := hasCRLF_cons_cons.mp h
    cases m with
    | zero => rfl
    | succ m' =>
      simp only [List.take]
      rw [hasCRLF_cons_cons]
      exact ⟨h1, by simpa using hasCRLF_take (b :: t) (m' + 1) h2⟩

lemma hasCRLF_append_cr : ∀ l : List Nat, hasCRLF l = false →
    hasCRLF (l ++ [13]) = false
  | [], _ => rfl
  | [a], _ => by
    simp only [List.cons_append, List.nil_append]
    rw [hasCRLF_cons_cons]
    exact ⟨by omega, rfl⟩
  | a :: b :: t, h => by
    obtain ⟨h1, h2⟩ := hasCRLF_cons_cons.mp h
    simp only [List.cons_append]
    rw [hasCRLF_cons_cons]
    exact ⟨h1, by simpa using hasCRLF_append_cr (b :: t) h2⟩

lemma ruc_found : ∀ (pre rest : List Nat), hasCRLF pre = false →
    read_until_crlf (pre ++ 13 :: 10 :: rest) = some (pre, pre.length + 2) := by
  intro pre
  induction pre with
  | nil =>
    intro rest _
    simp [read_until_crlf]
  | cons a pre' ih =>
    intro rest h
    cases pre' with
    | nil =>
      have hcond : ¬(a = 13 ∧ (13 : Nat) = 10) := by omega
      simp only [List.cons_append, List.nil_append]
      conv_lhs => rw [read_until_crlf]
      simp only [CARRIAGE_RETURN_eq, NEWLINE_eq]
      rw [if_neg hcond]
      have inner : read_until_crlf (13 :: 10 :: rest) = some ([], 2) := by
        conv_lhs => rw [read_until_crlf]
        simp
      rw [inner]
      rfl
    | cons c t =>
      obtain ⟨h1, h2⟩ := hasCRLF_cons_cons.mp h
      have ih' := ih rest h2
      simp only [List.cons_append] at ih' ⊢
      conv_lhs => rw [read_until_crlf]
      simp only [CARRIAGE_RETURN_eq, NEWLINE_eq]
      rw [if_neg h1, ih']
      simp [List.length_cons]

lemma ruc_none : ∀ l : List Nat, hasCRLF l = false → read_until_crlf l = none
  | [], _ => rfl
  | [_], _ => rfl
  | a :: b :: t, h => by
    obtain ⟨h1, h2⟩ := hasCRLF_cons_cons.mp h
    conv_lhs => rw [read_until_crlf]
    simp only [CARRIAGE_RETURN_eq, NEWLINE_eq]
    rw [if_neg h1, ruc_none (b :: t) h2]

lemma ruc_some_inv : ∀ (l line : List Nat) (len : Nat),
    read_until_crlf l = some (line, len) →
    hasCRLF line = false ∧ len = line.length + 2 ∧
      l = line ++ 13 :: 10 :: l.drop len
  | [], line, len, h => by simp [read_until_crlf] at h
  | [a], line, len, h => by simp [read_until_crlf] at h
  | a :: b :: t, line, len, h => by
    rw [read_until_crlf] at h
    simp only [CARRIAGE_RETURN_eq, NEWLINE_eq] at h
    by_cases hab : a = 13 ∧ b = 10
    · rw [if_pos hab] at h
      obtain ⟨rfl, rfl⟩ : line = [] ∧ len = 2 := by
        refine ⟨?_, ?_⟩ <;> cases h <;> rfl
      exact ⟨rfl, rfl, by simp [hab.1, hab.2]⟩
    · rw [if_neg hab] at h
      cases hr : read_until_crlf (b :: t) with
      | none => rw [hr] at h; cases h
      | some p =>
        obtain ⟨line', len'⟩ := p
        rw [hr] at h
        obtain ⟨rfl, rfl⟩ : line = a :: line' ∧ len = len' + 1 := by
          refine ⟨?_, ?_⟩ <;> cases h <;> rfl
        obtain ⟨h1, h2, h3⟩ := ruc_some_inv (b :: t) line' len' hr
        refine ⟨?_, by simp [h2], ?_⟩
        · cases line' with
          | nil => rfl
          | cons c t' =>
            have hc : c = b := by
              have := congrArg List.head? h3
              simpa using this.symm
            rw [hasCRLF_cons_cons]
            exact ⟨by rw [hc]; exact hab, h1⟩
        · have hd : (a :: b :: t).drop (len' + 1) = (b :: t).drop len' := rfl
          rw [hd]
          simpa using congrArg (List.cons a) h3

lemma ruc_some_le {l line : List Nat} {len : Nat}
    (h : read_until_crlf l = some (line, len)) : 2 ≤ len ∧ len ≤ l.length := by
  obtain ⟨_, h2, h3⟩ := ruc_some_inv l line len h
  have := congrArg List.length h3
  simp at this
  omega

lemma ruc_take_lt {l line : List Nat} {len m : Nat}
    (h : read_until_crlf l = some (line, len)) (hm : m < len) :
    read_until_crlf (l.take m) = none := by
  obtain ⟨h1, h2, h3⟩ := ruc_some_inv l line len h
  apply ruc_none
  have hcr : hasCRLF (line ++ [13]) = false := hasCRLF_append_cr line h1
  have htake : l.take m = (line ++ [13]).take m := by
    conv_lhs => rw [h3]
    have hsplit : line ++ 13 :: 10 :: l.drop len = (line ++ [13]) ++ 10 :: l.drop len := by
      simp
    rw [hsplit, List.take_append_of_le_length]
    simp
    omega
  rw [htake]
  exact hasCRLF_take _ m hcr

lemma ruc_take_ge {l line : List Nat} {len m : Nat}
    (h : read_until_crlf l = some (line, len)) (hm : len ≤ m) :
    read_until_crlf (l.take m) = some (line, len) := by
  obtain ⟨h1, h2, h3⟩ := ruc_some_inv l line len h
  have htake : l.take m = line ++ 13 :: 10 :: ((l.drop len).take (m - len)) := by
    conv_lhs => rw [h3]
    rw [List.take_append_eq_append_take]
    congr 1
    · exact List.take_of_length_le (by omega)
    · have hml : m - line.length = (m - len) + 2 := by omega
      rw [hml]
      rfl
  rw [htake, ruc_found line _ h1, h2]

/-! ### Lemmas about digits, ASCII and integer parsing -/

lemma validUtf8_ascii : ∀ l : List Nat, (∀ b ∈ l, b < 128) → validUtf8 l = true
  | [], _ => rfl
  | b :: t, h => by
    have hb : b < 128 := h b (by simp)
    rw [validUtf8]
    rw [if_pos hb]
    exact validUtf8_ascii t (fun x hx => h x (by simp [hx]))

lemma parse_string_ascii {l : List Nat} (h : ∀ b ∈ l, b < 128) :
    parse_string l = .ok l := by
  rw [parse_string, if_pos (validUtf8_ascii l h)]

lemma digitsVal_append (l : List Nat) (d : Nat) :
    digitsVal (l ++ [d]) = digitsVal l * 10 + (d - 48) := by
  simp [digitsVal, List.foldl_append]

lemma ntdbAux_digits : ∀ fuel n, n < fuel →
    ∀ b ∈ natToDecBytesAux fuel n, 48 ≤ b ∧ b ≤ 57 := by
  intro fuel
  induction fuel with
  | zero => omega
  | succ fuel ih =>
    intro n hn b hb
    rw [natToDecBytesAux] at hb
    by_cases h10 : n < 10
    · rw [if_pos h10] at hb
      simp at hb
      omega
    · rw [if_neg h10] at hb
      rcases List.mem_append.mp hb with hb1 | hb2
      · exact ih (n / 10) (by omega) b hb1
      · have : b = 48 + n % 10 := by simpa using hb2
        have := Nat.mod_lt n (show 0 < 10 by norm_num)
        omega

lemma ntdbAux_ne_nil : ∀ fuel n, n < fuel → natToDecBytesAux fuel n ≠ [] := by
  intro fuel
  induction fuel with
  | zero => omega
  | succ fuel ih =>
    intro n hn
    rw [natToDecBytesAux]
    by_cases h10 : n < 10
    · rw [if_pos h10]; simp
    · rw [if_neg h10]; simp

lemma ntdbAux_val : ∀ fuel n, n < fuel → digitsVal (natToDecBytesAux fuel n) = n := by
  intro fuel
  induction fuel with
  | zero => omega
  | succ fuel ih =>
    intro n hn
    rw [natToDecBytesAux]
    by_cases h10 : n < 10
    · rw [if_pos h10]
      simp [digitsVal]
    · rw [if_neg h10]
      rw [digitsVal_append, ih (n / 10) (by omega)]
      omega

lemma ntdbAux_len : ∀ fuel n, n < fuel → (natToDecBytesAux fuel n).length ≤ n + 1 := by
  intro fuel
  induction fuel with
  | zero => omega
  | succ fuel ih =>
    intro n hn
    rw [natToDecBytesAux]
    by_cases h10 : n < 10
    · rw [if_pos h10]; simp
    · rw [if_neg h10]
      have := ih (n / 10) (by omega)
      simp [List.length_append]
      omega

lemma natToDecBytes_digits {n b : Nat} (hb : b ∈ natToDecBytes n) :
    48 ≤ b ∧ b ≤ 57 :=
  ntdbAux_digits (n + 1) n (by omega) b hb

lemma natToDecBytes_len (n : Nat) : (natToDecBytes n).length ≤ n + 1 :=
  ntdbAux_len (n + 1) n (by omega)

lemma digitsToNat_natToDecBytes (n : Nat) : digitsToNat? (natToDecBytes n) = some n := by
  rw [digitsToNat?, if_pos, natToDecBytes, ntdbAux_val (n + 1) n (by omega)]
  constructor
  · exact ntdbAux_ne_nil (n + 1) n (by omega)
  · rw [List.all_eq_true]
    intro b hb
    have := natToDecBytes_digits hb
    simp [isDigitByte]
    omega

lemma hasCRLF_natToDecBytes (n : Nat) : hasCRLF (natToDecBytes n) = false := by
  apply hasCRLF_of_no_cr
  intro b hb
  have := natToDecBytes_digits hb
  omega

lemma natToDecBytes_ascii {n b : Nat} (hb : b ∈ natToDecBytes n) : b < 128 := by
  have := natToDecBytes_digits hb
  omega

lemma i64Clamp_some {o : Option Int} {v : Int} (h : i64Clamp o = some v) :
    o = some v ∧ -(2 ^ 63) ≤ v ∧ v ≤ 2 ^ 63 - 1 := by
  cases o with
  | none => cases h
  | some u =>
    rw [i64Clamp] at h
    by_cases hb : -(2 ^ 63) ≤ u ∧ u ≤ 2 ^ 63 - 1
    · rw [if_pos hb] at h
      cases h
      exact ⟨rfl, hb⟩
    · rw [if_neg hb] at h
      cases h

lemma i64Clamp_of_bound {v : Int} (h1 : -(2 ^ 63) ≤ v) (h2 : v ≤ 2 ^ 63 - 1) :
    i64Clamp (some v) = some v := by
  rw [i64Clamp, if_pos ⟨h1, h2⟩]

lemma i64FromStr_digits {l : List Nat} {m : Nat}
    (h : digitsToNat? l = some m) (hdig : ∀ b ∈ l, 48 ≤ b ∧ b ≤ 57)
    (hm : m < 2 ^ 63) : i64FromStr l = some (m : Int) := by
  obtain ⟨b, rest, rfl⟩ : ∃ b rest, l = b :: rest := by
    cases l with
    | nil => rw [digitsToNat?] at h; simp at h
    | cons b rest => exact ⟨b, rest, rfl⟩
  have hb := hdig b (by simp)
  have hb43 : ¬(b = 43) := by omega
  have hb45 : ¬(b = 45) := by omega
  simp only [i64FromStr, if_neg hb43, if_neg hb45, h, Option.map_some']
  show i64Clamp (some ((m : Nat) : Int)) = some ((m : Nat) : Int)
  exact i64Clamp_of_bound (by omega) (by omega)

lemma parse_integer_natToDecBytes {n : Nat} (h : n < 2 ^ 63) :
    parse_integer (natToDecBytes n) = .ok (n : Int) := by
  simp only [parse_integer, parse_string_ascii (fun b hb => natToDecBytes_ascii hb),
    i64FromStr_digits (digitsToNat_natToDecBytes n)
      (fun b hb => natToDecBytes_digits hb) h]

lemma parse_integer_ok_bound {l : List Nat} {v : Int}
    (h : parse_integer l = .ok v) : -(2 ^ 63) ≤ v ∧ v ≤ 2 ^ 63 - 1 := by
  rw [parse_integer] at h
  cases hps : parse_string l with
  | error e => simp only [hps] at h; cases h
  | ok s =>
    simp only [hps] at h
    cases hi : i64FromStr s with
    | none => simp only [hi] at h; cases h
    | some w =>
      simp only [hi] at h
      obtain rfl : w = v := by cases h; rfl
      simp only [i64FromStr] at hi
      exact (i64Clamp_some hi).2

lemma usizeOfI64_ofNat {n : Nat} (h : n < 2 ^ 64) : usizeOfI64 (n : Int) = n := by
  rw [usizeOfI64, USIZE]
  omega

lemma usizeOfI64_neg {n : Int} (h1 : -(2 ^ 63) ≤ n) (h2 : n < 0) :
    2 ^ 63 ≤ usizeOfI64 n ∧ usizeOfI64 n < 2 ^ 64 ∧
      (usizeOfI64 n : Int) = n + 2 ^ 64 := by
  rw [usizeOfI64, USIZE]
  constructor
  · omega
  · constructor <;> omega

/-! ### Lemmas about the decoders and the fuelled dispatch -/

lemma decode_simple_no_done {l : List Nat} {v : Value} {n : Nat} :
    decode_simple_string l ≠ .done v n := by
  rw [decode_simple_string]
  by_cases h1 : l.length < 1
  · rw [if_pos h1]
    intro h; cases h
  · rw [if_neg h1]
    cases hr : read_until_crlf (l.drop 1) with
    | none => intro h; cases h
    | some p =>
      obtain ⟨line, len⟩ := p
      cases hps : parse_string line with
      | error e => simp only [hps]; intro h; cases h
      | ok s => simp only [hps]; intro h; cases h

lemma decode_bulk_done_le {b : List Nat} {v : Value} {n : Nat}
    (h : decode_bulk_string b = .done v n) : n ≤ b.length := by
  rw [decode_bulk_string] at h
  by_cases h1 : b.length < 1
  · rw [if_pos h1] at h; cases h
  · rw [if_neg h1] at h
    cases hr : read_until_crlf (b.drop 1) with
    | none => simp only [hr] at h; cases h
    | some p =>
      obtain ⟨line, len⟩ := p
      simp only [hr] at h
      cases hpi : parse_integer line with
      | error e => simp only [hpi] at h; cases h
      | ok bl =>
        simp only [hpi] at h
        by_cases h2 : ((len + 1 + usizeOfI64 bl) % USIZE + 2) % USIZE ≤ b.length
        · rw [if_pos h2] at h
          by_cases h3 : len + 1 ≤ (len + 1 + usizeOfI64 bl) % USIZE ∧
              (len + 1 + usizeOfI64 bl) % USIZE ≤ b.length
          · rw [if_pos h3] at h
            cases hps : parse_string ((b.drop (len + 1)).take
                ((len + 1 + usizeOfI64 bl) % USIZE - (len + 1))) with
            | error e => simp only [hps] at h; cases h
            | ok s =>
              simp only [hps] at h
              cases h
              exact h2
          · rw [if_neg h3] at h; cases h
        · rw [if_neg h2] at h; cases h

lemma pmF_nil : ∀ f, parse_message_fuel f [] = .panic := by
  intro f; cases f <;> rfl

lemma parse_message_cons (x : Nat) (t : List Nat) :
    parse_message (x :: t) =
      if x = 43 then decode_simple_string (x :: t)
      else if x = 42 then decode_array (parse_message_fuel (t.length + 1)) (x :: t)
      else if x = 36 then decode_bulk_string (x :: t)
      else .fails ("unrecognised message type") := rfl

lemma parse_message_nil : parse_message [] = .panic := rfl

lemma parse_message_simple (t : List Nat) :
    parse_message (43 :: t) = decode_simple_string (43 :: t) := by
  rw [parse_message_cons, if_pos rfl]

lemma parse_message_star (t : List Nat) :
    parse_message (42 :: t) =
      decode_array (parse_message_fuel (t.length + 1)) (42 :: t) := by
  rw [parse_message_cons, if_neg (by norm_num), if_pos rfl]

lemma parse_message_bulk (t : List Nat) :
    parse_message (36 :: t) = decode_bulk_string (36 :: t) := by
  rw [parse_message_cons, if_neg (by norm_num), if_neg (by norm_num), if_pos rfl]

lemma decode_elems_congr {pm1 pm2 : List Nat → DecodeOutcome} {buffer : List Nat} :
    ∀ (k c : Nat) (items : List Value),
      (∀ c', c ≤ c' → pm1 (buffer.drop c') = pm2 (buffer.drop c')) →
      decode_elems pm1 buffer k c items = decode_elems pm2 buffer k c items := by
  intro k
  induction k with
  | zero => intro c items _; rfl
  | succ k ih =>
    intro c items hp
    rw [decode_elems, decode_elems]
    by_cases hc : c ≤ buffer.length
    · rw [if_pos hc, if_pos hc, hp c le_rfl]
      cases pm2 (buffer.drop c) with
      | done v len => exact ih (c + len) (items ++ [v]) (fun c' hc' => hp c' (by omega))
      | incomplete => rfl
      | fails e => rfl
      | panic => rfl
    · rw [if_neg hc, if_neg hc]

lemma decode_array_congr {pm1 pm2 : List Nat → DecodeOutcome} {buffer : List Nat}
    (hp : ∀ c', 1 ≤ c' → pm1 (buffer.drop c') = pm2 (buffer.drop c')) :
    decode_array pm1 buffer = decode_array pm2 buffer := by
  rw [decode_array, decode_array]
  by_cases h1 : buffer.length < 1
  · rw [if_pos h1, if_pos h1]
  · rw [if_neg h1, if_neg h1]
    cases hr : read_until_crlf (buffer.drop 1) with
    | none => rfl
    | some p =>
      obtain ⟨line, len⟩ := p
      cases hpi : parse_integer line with
      | error e => simp only [hpi]
      | ok array_length =>
        simp only [hpi]
        exact decode_elems_congr array_length.toNat (len + 1) []
          (fun c' hc' => hp c' (by omega))

lemma parse_message_fuel_irrel : ∀ (f1 : Nat) (f2 : Nat) (b : List Nat),
    b.length < f1 → b.length < f2 →
    parse_message_fuel f1 b = parse_message_fuel f2 b := by
  intro f1
  induction f1 with
  | zero => intro f2 b h1 _; omega
  | succ f1 ih =>
    intro f2 b h1 h2
    cases f2 with
    | zero => omega
    | succ f2 =>
      cases b with
      | nil => rfl
      | cons x t =>
        rw [parse_message_fuel, parse_message_fuel]
        by_cases hx43 : x = 43
        · rw [if_pos hx43, if_pos hx43]
        · rw [if_neg hx43, if_neg hx43]
          by_cases hx42 : x = 42
          · rw [if_pos hx42, if_pos hx42]
            apply decode_array_congr
            intro c' hc'
            have hlen : ((x :: t).drop c').length = t.length + 1 - c' := by
              simp [List.length_drop]
            have h1' : t.length < f1 := by
              simp only [List.length_cons] at h1
              omega
            have h2' : t.length < f2 := by
              simp only [List.length_cons] at h2
              omega
            exact ih f2 _ (by omega) (by omega)
          · rw [if_neg hx42, if_neg hx42]

lemma parse_message_fuel_eq {f : Nat} {b : List Nat} (h : b.length < f) :
    parse_message_fuel f b = parse_message b :=
  parse_message_fuel_irrel f (b.length + 1) b h (by omega)

/-! ### The decode-cursor invariant and the never-Null property -/

lemma decode_elems_done_le {pm : List Nat → DecodeOutcome} {buffer : List Nat}
    (hpm : ∀ b' v' n', pm b' = .done v' n' → n' ≤ b'.length) :
    ∀ (k c : Nat) (items : List Value) {v : Value} {n : Nat},
      c ≤ buffer.length → decode_elems pm buffer k c items = .done v n →
      n ≤ buffer.length := by
  intro k
  induction k with
  | zero =>
    intro c items v n hc h
    rw [decode_elems] at h
    cases h
    exact hc
  | succ k ih =>
    intro c items v n hc h
    rw [decode_elems, if_pos hc] at h
    cases hsub : pm (buffer.drop c) with
    | done v' len' =>
      rw [hsub] at h
      have hlen' : len' ≤ (buffer.drop c).length := hpm _ _ _ hsub
      rw [List.length_drop] at hlen'
      exact ih (c + len') (items ++ [v']) (by omega) h
    | incomplete => rw [hsub] at h; cases h
    | fails e => rw [hsub] at h; cases h
    | panic => rw [hsub] at h; cases h

lemma pmF_done_le : ∀ (f : Nat) (b : List Nat) (v : Value) (n : Nat),
    parse_message_fuel f b = .done v n → n ≤ b.length := by
  intro f
  induction f with
  | zero =>
    intro b v n h
    rw [parse_message_fuel] at h
    cases h
  | succ f ih =>
    intro b v n h
    cases b with
    | nil => cases h
    | cons x t =>
      rw [parse_message_fuel] at h
      by_cases hx43 : x = 43
      · rw [if_pos hx43] at h
        exact absurd h decode_simple_no_done
      · rw [if_neg hx43] at h
        by_cases hx42 : x = 42
        · rw [if_pos hx42] at h
          rw [decode_array] at h
          rw [if_neg (by simp)] at h
          cases hr : read_until_crlf ((x :: t).drop 1) with
          | none => rw [hr] at h; cases h
          | some p =>
            obtain ⟨line, len⟩ := p
            rw [hr] at h
            cases hpi : parse_integer line with
            | error e => simp only [hpi] at h; cases h
            | ok al =>
              simp only [hpi] at h
              have hle := ruc_some_le hr
              simp only [List.drop_one, List.length_tail, List.length_cons] at hle
              refine decode_elems_done_le (fun b' v' n' hh => ih b' v' n' hh)
                al.toNat (len + 1) [] ?_ h
              simp only [List.length_cons]
              omega
        · rw [if_neg hx42] at h
          by_cases hx36 : x = 36
          · rw [if_pos hx36] at h
            exact decode_bulk_done_le h
          · rw [if_neg hx36] at h
            cases h

/-- Claim-supporting fact: a successful decode never consumes more bytes
than the buffer holds. -/
lemma parse_message_done_le {b : List Nat} {v : Value} {n : Nat}
    (h : parse_message b = .done v n) : n ≤ b.length :=
  pmF_done_le (b.length + 1) b v n h

lemma decode_bulk_done_shape {b : List Nat} {v : Value} {n : Nat}
    (h : decode_bulk_string b = .done v n) : ∃ s, v = .BulkString s := by
  rw [decode_bulk_string] at h
  by_cases h1 : b.length < 1
  · rw [if_pos h1] at h; cases h
  · rw [if_neg h1] at h
    cases hr : read_until_crlf (b.drop 1) with
    | none => simp only [hr] at h; cases h
    | some p =>
      obtain ⟨line, len⟩ := p
      simp only [hr] at h
      cases hpi : parse_integer line with
      | error e => simp only [hpi] at h; cases h
      | ok bl =>
        simp only [hpi] at h
        by_cases h2 : ((len + 1 + usizeOfI64 bl) % USIZE + 2) % USIZE ≤ b.length
        · rw [if_pos h2] at h
          by_cases h3 : len + 1 ≤ (len + 1 + usizeOfI64 bl) % USIZE ∧
              (len + 1 + usizeOfI64 bl) % USIZE ≤ b.length
          · rw [if_pos h3] at h
            cases hps : parse_string ((b.drop (len + 1)).take
                ((len + 1 + usizeOfI64 bl) % USIZE - (len + 1))) with
            | error e => simp only [hps] at h; cases h
            | ok s =>
              simp only [hps] at h
              cases h
              exact ⟨s, rfl⟩
          · rw [if_neg h3] at h; cases h
        · rw [if_neg h2] at h; cases h

lemma listHasNull_append (l : List Value) (v : Value) :
    listHasNull (l ++ [v]) = (listHasNull l || valueHasNull v) := by
  induction l with
  | nil => simp [listHasNull]
  | cons w l ih =>
    simp only [List.cons_append, listHasNull]
    rw [show l.append [v] = l ++ [v] from rfl, ih, Bool.or_assoc]

lemma decode_elems_done_no_null {pm : List Nat → DecodeOutcome} {buffer : List Nat}
    (hpm : ∀ b' v' n', pm b' = .done v' n' → valueHasNull v' = false) :
    ∀ (k c : Nat) (items : List Value) {v : Value} {n : Nat},
      listHasNull items = false → decode_elems pm buffer k c items = .done v n →
      valueHasNull v = false := by
  intro k
  induction k with
  | zero =>
    intro c items v n hi h
    rw [decode_elems] at h
    cases h
    simpa [valueHasNull] using hi
  | succ k ih =>
    intro c items v n hi h
    rw [decode_elems] at h
    by_cases hc : c ≤ buffer.length
    · rw [if_pos hc] at h
      cases hsub : pm (buffer.drop c) with
      | done v' len' =>
        rw [hsub] at h
        refine ih (c + len') (items ++ [v']) ?_ h
        rw [listHasNull_append, hi, hpm _ _ _ hsub]
        rfl
      | incomplete => rw [hsub] at h; cases h
      | fails e => rw [hsub] at h; cases h
      | panic => rw [hsub] at h; cases h
    · rw [if_neg hc] at h; cases h

lemma pmF_done_no_null : ∀ (f : Nat) (b : List Nat) (v : Value) (n : Nat),
    parse_message_fuel f b = .done v n → valueHasNull v = false := by
  intro f
  induction f with
  | zero =>
    intro b v n h
    rw [parse_message_fuel] at h
    cases h
  | succ f ih =>
    intro b v n h
    cases b with
    | nil => cases h
    | cons x t =>
      rw [parse_message_fuel] at h
      by_cases hx43 : x = 43
      · rw [if_pos hx43] at h
        exact absurd h decode_simple_no_done
      · rw [if_neg hx43] at h
        by_cases hx42 : x = 42
        · rw [if_pos hx42] at h
          rw [decode_array] at h
          rw [if_neg (by simp)] at h
          cases hr : read_until_crlf ((x :: t).drop 1) with
          | none => rw [hr] at h; cases h
          | some p =>
            obtain ⟨line, len⟩ := p
            rw [hr] at h
            cases hpi : parse_integer line with
            | error e => simp only [hpi] at h; cases h
            | ok al =>
              simp only [hpi] at h
              exact decode_elems_done_no_null
                (fun b' v' n' hh => ih b' v' n' hh) al.toNat (len + 1) [] rfl h
        · rw [if_neg hx42] at h
          by_cases hx36 : x = 36
          · rw [if_pos hx36] at h
            obtain ⟨s, rfl⟩ := decode_bulk_done_shape h
            rfl
          · rw [if_neg hx36] at h
            cases h

/-- A successfully decoded value never contains the `Null` marker. -/
lemma parse_message_done_no_null {b : List Nat} {v : Value} {n : Nat}
    (h : parse_message b = .done v n) : valueHasNull v = false :=
  pmF_done_no_null (b.length + 1) b v n h

/-! ### Decoding an encoded bulk string, and sequence-header behaviour -/

lemma decode_bulk_encode {s : List Nat} (hA : ∀ x ∈ s, x < 128)
    (hlen : s.length < 2 ^ 62) :
    decode_bulk_string (36 :: (natToDecBytes s.length ++ [13, 10] ++ s ++ [13, 10])) =
      .done (.BulkString s) ((natToDecBytes s.length).length + s.length + 5) := by
  have hDlen : (natToDecBytes s.length).length ≤ s.length + 1 :=
    natToDecBytes_len s.length
  have hguard : ¬((36 : Nat) :: (natToDecBytes s.length ++ [13, 10] ++ s ++ [13, 10])).length < 1 := by
    simp
  have hdrop1 : ((36 : Nat) :: (natToDecBytes s.length ++ [13, 10] ++ s ++ [13, 10])).drop 1
      = natToDecBytes s.length ++ 13 :: 10 :: (s ++ [13, 10]) := by
    simp
  have hruc : read_until_crlf (natToDecBytes s.length ++ 13 :: 10 :: (s ++ [13, 10]))
      = some (natToDecBytes s.length, (natToDecBytes s.length).length + 2) :=
    ruc_found _ _ (hasCRLF_natToDecBytes _)
  have hpi : parse_integer (natToDecBytes s.length) = .ok ((s.length : Nat) : Int) :=
    parse_integer_natToDecBytes (by omega)
  have husize : usizeOfI64 ((s.length : Nat) : Int) = s.length :=
    usizeOfI64_ofNat (by omega)
  have hlenbuf : ((36 : Nat) :: (natToDecBytes s.length ++ [13, 10] ++ s ++ [13, 10])).length
      = (natToDecBytes s.length).length + s.length + 5 := by
    simp
    omega
  have heob : ((natToDecBytes s.length).length + 2 + 1 + s.length) % USIZE
      = (natToDecBytes s.length).length + 3 + s.length := by
    rw [USIZE]; apply Nat.mod_eq_of_lt; omega
  have heol : ((natToDecBytes s.length).length + 3 + s.length + 2) % USIZE
      = (natToDecBytes s.length).length + s.length + 5 := by
    rw [USIZE, Nat.mod_eq_of_lt (by omega)]
    omega
  have hc1 : (natToDecBytes s.length).length + s.length + 5 ≤
      ((36 : Nat) :: (natToDecBytes s.length ++ [13, 10] ++ s ++ [13, 10])).length := by
    rw [hlenbuf]
  have hc2 : (natToDecBytes s.length).length + 2 + 1 ≤
        (natToDecBytes s.length).length + 3 + s.length ∧
      (natToDecBytes s.length).length + 3 + s.length ≤
        ((36 : Nat) :: (natToDecBytes s.length ++ [13, 10] ++ s ++ [13, 10])).length := by
    rw [hlenbuf]
    omega
  have hsub : (natToDecBytes s.length).length + 3 + s.length -
      ((natToDecBytes s.length).length + 2 + 1) = s.length := by omega
  have hdropbc : ((36 : Nat) :: (natToDecBytes s.length ++ [13, 10] ++ s ++ [13, 10])).drop
      ((natToDecBytes s.length).length + 2 + 1) = s ++ [13, 10] := by
    have hform : (36 : Nat) :: (natToDecBytes s.length ++ [13, 10] ++ s ++ [13, 10])
        = (36 :: (natToDecBytes s.length ++ [13, 10])) ++ (s ++ [13, 10]) := by
      simp
    rw [hform]
    apply List.drop_left'
    simp
  have htake : (s ++ [13, 10]).take s.length = s := List.take_left' rfl
  have hps : parse_string s = .ok s := parse_string_ascii hA
  simp only [decode_bulk_string, hdrop1, hruc, hpi, husize, heob, heol, hguard,
    hc1, hc2, hsub, hdropbc, htake, hps, if_true, if_false]
  simp

lemma star_header_empty_panic {k : Nat} (h1 : 1 ≤ k) (h2 : k < 2 ^ 63) :
    parse_message (42 :: (natToDecBytes k ++ [13, 10])) = .panic := by
  rw [parse_message_star]
  have hguard : ¬((42 : Nat) :: (natToDecBytes k ++ [13, 10])).length < 1 := by simp
  have hdrop1 : ((42 : Nat) :: (natToDecBytes k ++ [13, 10])).drop 1
      = natToDecBytes k ++ 13 :: 10 :: ([] : List Nat) := by simp
  have hruc : read_until_crlf (natToDecBytes k ++ 13 :: 10 :: ([] : List Nat))
      = some (natToDecBytes k, (natToDecBytes k).length + 2) :=
    ruc_found _ _ (hasCRLF_natToDecBytes _)
  have hpi : parse_integer (natToDecBytes k) = .ok ((k : Nat) : Int) :=
    parse_integer_natToDecBytes h2
  have htonat : ((k : Nat) : Int).toNat = k := by simp
  simp only [decode_array, hguard, hdrop1, hruc, hpi, htonat, if_false]
  obtain ⟨k', rfl⟩ : ∃ k', k = k' + 1 := ⟨k - 1, by omega⟩
  rw [decode_elems]
  have hlenbuf : ((42 : Nat) :: (natToDecBytes (k' + 1) ++ [13, 10])).length
      = (natToDecBytes (k' + 1)).length + 3 := by simp
  rw [if_pos (by rw [hlenbuf])]
  have hdropall : ((42 : Nat) :: (natToDecBytes (k' + 1) ++ [13, 10])).drop
      ((natToDecBytes (k' + 1)).length + 2 + 1) = [] := by
    rw [List.drop_eq_nil_iff, hlenbuf]
  rw [hdropall, pmF_nil]

lemma star_header_tail_incomplete {k : Nat} {tail : List Nat}
    (h1 : 1 ≤ k) (h2 : k < 2 ^ 63)
    (ht : parse_message tail = .incomplete) :
    parse_message (42 :: (natToDecBytes k ++ [13, 10] ++ tail)) = .incomplete := by
  rw [parse_message_star]
  have hguard : ¬((42 : Nat) :: (natToDecBytes k ++ [13, 10] ++ tail)).length < 1 := by
    simp
  have hdrop1 : ((42 : Nat) :: (natToDecBytes k ++ [13, 10] ++ tail)).drop 1
      = natToDecBytes k ++ 13 :: 10 :: tail := by simp
  have hruc : read_until_crlf (natToDecBytes k ++ 13 :: 10 :: tail)
      = some (natToDecBytes k, (natToDecBytes k).length + 2) :=
    ruc_found _ _ (hasCRLF_natToDecBytes _)
  have hpi : parse_integer (natToDecBytes k) = .ok ((k : Nat) : Int) :=
    parse_integer_natToDecBytes h2
  have htonat : ((k : Nat) : Int).toNat = k := by simp
  simp only [decode_array, hguard, hdrop1, hruc, hpi, htonat, if_false]
  obtain ⟨k', rfl⟩ : ∃ k', k = k' + 1 := ⟨k - 1, by omega⟩
  rw [decode_elems]
  have hlenbuf : ((42 : Nat) :: (natToDecBytes (k' + 1) ++ [13, 10] ++ tail)).length
      = (natToDecBytes (k' + 1)).length + 3 + tail.length := by
    simp
    omega
  rw [if_pos (by rw [hlenbuf]; omega)]
  have hdroptl : ((42 : Nat) :: (natToDecBytes (k' + 1) ++ [13, 10] ++ tail)).drop
      ((natToDecBytes (k' + 1)).length + 2 + 1) = tail := by
    have hform : (42 : Nat) :: (natToDecBytes (k' + 1) ++ [13, 10] ++ tail)
        = (42 :: (natToDecBytes (k' + 1) ++ [13, 10])) ++ tail := by
      simp
    rw [hform]
    apply List.drop_left'
    simp
  rw [hdroptl]
  have hfuel : parse_message_fuel ((natToDecBytes (k' + 1) ++ [13, 10] ++ tail).length + 1)
      tail = parse_message tail := by
    apply parse_message_fuel_eq
    simp
    omega
  rw [hfuel, ht]

/-! ### Inversion of a successful bulk-string decode, and prefixes -/

lemma decode_bulk_done_inv {b : List Nat} {v : Value} {n : Nat}
    (hblen : b.length < 2 ^ 63)
    (h : decode_bulk_string b = .done v n) :
    ∃ (line : List Nat) (bl : Nat),
      read_until_crlf (b.drop 1) = some (line, line.length + 2) ∧
      parse_integer line = .ok ((bl : Nat) : Int) ∧
      bl < 2 ^ 63 ∧
      n = line.length + 3 + bl + 2 ∧
      n ≤ b.length := by
  rw [decode_bulk_string] at h
  by_cases h1 : b.length < 1
  · rw [if_pos h1] at h; cases h
  · rw [if_neg h1] at h
    cases hr : read_until_crlf (b.drop 1) with
    | none => simp only [hr] at h; cases h
    | some p =>
      obtain ⟨line, len⟩ := p
      have hle := ruc_some_le hr
      have hlen3 : len = line.length + 2 := (ruc_some_inv _ _ _ hr).2.1
      subst hlen3
      have hline_le : line.length + 2 ≤ b.length - 1 := by
        have := hle.2
        rw [List.length_drop] at this
        omega
      simp only [hr] at h
      cases hpi : parse_integer line with
      | error e => simp only [hpi] at h; cases h
      | ok blI =>
        simp only [hpi] at h
        obtain ⟨hb1, hb2⟩ := parse_integer_ok_bound hpi
        by_cases hneg : blI < 0
        · exfalso
          obtain ⟨hu1, hu2, _⟩ := usizeOfI64_neg hb1 hneg
          by_cases hw : line.length + 2 + 1 + usizeOfI64 blI < 2 ^ 64
          · have heq : (line.length + 2 + 1 + usizeOfI64 blI) % USIZE
                = line.length + 2 + 1 + usizeOfI64 blI := by
              rw [USIZE]; exact Nat.mod_eq_of_lt hw
            rw [heq] at h
            by_cases ho : (line.length + 2 + 1 + usizeOfI64 blI + 2) % USIZE ≤ b.length
            · rw [if_pos ho] at h
              rw [if_neg (by omega)] at h
              cases h
            · rw [if_neg ho] at h; cases h
          · have heq : (line.length + 2 + 1 + usizeOfI64 blI) % USIZE
                = line.length + 2 + 1 + usizeOfI64 blI - 2 ^ 64 := by
              rw [USIZE]
              omega
            rw [heq] at h
            by_cases ho : (line.length + 2 + 1 + usizeOfI64 blI - 2 ^ 64 + 2) % USIZE
                ≤ b.length
            · rw [if_pos ho] at h
              rw [if_neg (by omega)] at h
              cases h
            · rw [if_neg ho] at h; cases h
        · push_neg at hneg
          have hblI : blI = ((blI.toNat : Nat) : Int) := (Int.toNat_of_nonneg hneg).symm
          have hblb : blI.toNat < 2 ^ 63 := by omega
          have husz : usizeOfI64 blI = blI.toNat := by
            rw [hblI]; exact usizeOfI64_ofNat (by omega)
          rw [husz] at h
          have hsum : line.length + 2 + 1 + blI.toNat < 2 ^ 64 := by omega
          have heqeob : (line.length + 2 + 1 + blI.toNat) % USIZE
              = line.length + 2 + 1 + blI.toNat := by
            rw [USIZE]; exact Nat.mod_eq_of_lt hsum
          rw [heqeob] at h
          by_cases hsum2 : line.length + 2 + 1 + blI.toNat + 2 < 2 ^ 64
          · have heqeol : (line.length + 2 + 1 + blI.toNat + 2) % USIZE
                = line.length + 2 + 1 + blI.toNat + 2 := by
              rw [USIZE]; exact Nat.mod_eq_of_lt hsum2
            rw [heqeol] at h
            by_cases ho : line.length + 2 + 1 + blI.toNat + 2 ≤ b.length
            · rw [if_pos ho] at h
              rw [if_pos ⟨by omega, by omega⟩] at h
              cases hps : parse_string ((b.drop (line.length + 2 + 1)).take
                  (line.length + 2 + 1 + blI.toNat - (line.length + 2 + 1))) with
              | error e => simp only [hps] at h; cases h
              | ok s =>
                simp only [hps] at h
                cases h
                exact ⟨line, blI.toNat, rfl, by rw [← hblI, hpi], hblb, by omega, by omega⟩
            · rw [if_neg ho] at h; cases h
          · have heqeol : (line.length + 2 + 1 + blI.toNat + 2) % USIZE = 0 := by
              rw [USIZE]; omega
            rw [heqeol] at h
            rw [if_pos (by omega)] at h
            rw [if_neg (by omega)] at h
            cases h

lemma decode_bulk_take_incomplete {b : List Nat} {v : Value}
    (hblen : b.length < 2 ^ 63) (h : decode_bulk_string b = .done v b.length)
    {i : Nat} (hi1 : 1 ≤ i) (hi2 : i < b.length) :
    decode_bulk_string (b.take i) = .incomplete := by
  obtain ⟨line, bl, hr, hpi, hblb, hn, hnle⟩ := decode_bulk_done_inv hblen h
  rw [decode_bulk_string]
  have htl : (b.take i).length = i := by
    rw [List.length_take]
    omega
  rw [if_neg (by omega)]
  have hdt : (b.take i).drop 1 = (b.drop 1).take (i - 1) := List.drop_take i 1 b
  rw [hdt]
  by_cases hcase : i - 1 < line.length + 2
  · rw [ruc_take_lt hr hcase]
  · push_neg at hcase
    rw [ruc_take_ge hr (by omega)]
    have husz : usizeOfI64 ((bl : Nat) : Int) = bl := usizeOfI64_ofNat (by omega)
    simp only [hpi, husz]
    have heob : (line.length + 2 + 1 + bl) % USIZE = line.length + 3 + bl := by
      rw [USIZE, Nat.mod_eq_of_lt (by omega)]
    have heol : (line.length + 3 + bl + 2) % USIZE = line.length + 3 + bl + 2 := by
      rw [USIZE]; exact Nat.mod_eq_of_lt (by omega)
    simp only [heob, heol]
    rw [if_neg (by omega)]

/-! ### Lemmas about the command dispatcher -/

lemma toAsciiLowercase_no_upper {s : List Nat} {b : Nat}
    (hb : b ∈ toAsciiLowercase s) : ¬(65 ≤ b ∧ b ≤ 90) := by
  rw [toAsciiLowercase] at hb
  obtain ⟨a, _, rfl⟩ := List.mem_map.mp hb
  by_cases h : 65 ≤ a ∧ a ≤ 90
  · rw [if_pos h]; omega
  · rw [if_neg h]; omega

lemma toAsciiLowercase_ne_upper_cons {s : List Nat} {p : Nat} {rest : List Nat}
    (hp : 65 ≤ p ∧ p ≤ 90) : toAsciiLowercase s ≠ p :: rest := by
  intro h
  have hmem : p ∈ toAsciiLowercase s := by rw [h]; simp
  exact toAsciiLowercase_no_upper hmem hp

/-- The dead-match fact: because the command name is lowercased before
being compared with the uppercase patterns, no arm of the dispatch
match other than the fallback is ever taken. -/
lemma handle_command_not_implemented (command : List Nat) (args : List Value)
    (st : Store) :
    handle_command command args st =
      .reply (.Error (ascii ("command not implemented: ") ++ command)) st := by
  have h1 : toAsciiLowercase command ≠ ascii ("PING") := by
    rw [show ascii ("PING") = 80 :: ascii ("ING") from rfl]
    exact toAsciiLowercase_ne_upper_cons (by norm_num)
  have h2 : toAsciiLowercase command ≠ ascii ("ECHO") := by
    rw [show ascii ("ECHO") = 69 :: ascii ("CHO") from rfl]
    exact toAsciiLowercase_ne_upper_cons (by norm_num)
  have h3 : toAsciiLowercase command ≠ ascii ("GET") := by
    rw [show ascii ("GET") = 71 :: ascii ("ET") from rfl]
    exact toAsciiLowercase_ne_upper_cons (by norm_num)
  have h4 : toAsciiLowercase command ≠ ascii ("SET") := by
    rw [show ascii ("SET") = 83 :: ascii ("ET") from rfl]
    exact toAsciiLowercase_ne_upper_cons (by norm_num)
  have h5 : toAsciiLowercase command ≠ ascii ("DEL") := by
    rw [show ascii ("DEL") = 68 :: ascii ("EL") from rfl]
    exact toAsciiLowercase_ne_upper_cons (by norm_num)
  have h6 : toAsciiLowercase command ≠ ascii ("EXISTS") := by
    rw [show ascii ("EXISTS") = 69 :: ascii ("XISTS") from rfl]
    exact toAsciiLowercase_ne_upper_cons (by norm_num)
  simp only [handle_command, h1, h2, h3, h4, h5, h6, if_false]

/-- Dispatch of a decoded value never rewrites the store and never
panics: every request is answered with the not-implemented error. -/
lemma handle_value_seq_bulk {cmd : List Nat} {rest : List Value} {st : Store} :
    handle_value (.Seq (.BulkString cmd :: rest)) st =
      .reply (.Error (ascii ("command not implemented: ") ++ cmd)) st := by
  rw [handle_value]
  simp only [to_command, unwrap_bulk]
  rw [handle_command_not_implemented]

/-! ### Claims -/

/-- Claim C1 (counterexample): the round-trip fails already for the
Absence value.  `encode Null` yields the five bytes `$-1\r\n`, but
decoding them yields `Incomplete`, not `Done(Null, 5)`. -/
theorem C1_null_counterexample :
    encode Value.Null = some [36, 45, 49, 13, 10] ∧
    parse_message [36, 45, 49, 13, 10] = .incomplete ∧
    parse_message [36, 45, 49, 13, 10] ≠
      .done Value.Null ([36, 45, 49, 13, 10] : List Nat).length := by
  refine ⟨rfl, rfl, ?_⟩
  rw [show parse_message [36, 45, 49, 13, 10] = DecodeOutcome.incomplete from rfl]
  intro h
  cases h

/-- Claim C1 (amended): the round-trip `decode(encode(v)) = Done(v, len)`
holds exactly for Payload-string values whose content is ASCII (so that
the encoder's character count equals the byte count); Absence and Status
values decode to Incomplete and ErrorMessage has no decode path at all. -/
theorem C1_bulk_roundtrip (s es : List Nat) (hA : ∀ b ∈ s, b < 128)
    (hlen : s.length < 2 ^ 62) (he : encode (Value.BulkString s) = some es) :
    parse_message es = .done (Value.BulkString s) es.length := by
  have hes : (36 :: (natToDecBytes (charsCount s) ++ [13, 10] ++ s ++ [13, 10])) = es :=
    Option.some.inj he
  subst hes
  have hcc : charsCount s = s.length := by
    rw [charsCount]
    have hfe : s.filter (fun b => decide (b < 128) || decide (192 ≤ b)) = s := by
      rw [List.filter_eq_self]
      intro b hb
      simp [hA b hb]
    rw [hfe]
  rw [hcc]
  have hlenbuf : ((36 : Nat) :: (natToDecBytes s.length ++ [13, 10] ++ s ++ [13, 10])).length
      = (natToDecBytes s.length).length + s.length + 5 := by
    simp
    omega
  rw [hlenbuf, parse_message_bulk, decode_bulk_encode hA hlen]

/-- Claim C1 (witness): the ASCII payload `hi` round-trips through its
wire form `$2\r\nhi\r\n`. -/
theorem C1_roundtrip_witness :
    parse_message [36, 50, 13, 10, 104, 105, 13, 10] =
      .done (Value.BulkString [104, 105]) 8 :=
  C1_bulk_roundtrip [104, 105] [36, 50, 13, 10, 104, 105, 13, 10]
    (by decide) (by norm_num) rfl

/-- Claim C2 (code evaluation at the failing input): with the two frames
`$1\r\na\r\n$1\r\nb\r\n` in the accumulation buffer, decode consumes
exactly 7 bytes, so the driver should retain the trailing 7 bytes
`$1\r\nb\r\n`; instead `read_value` hands the whole buffer to
`BytesMut::split`, returns the first value and leaves the buffer empty,
discarding the second frame. -/
theorem C2_split_discards_tail :
    parse_message [36, 49, 13, 10, 97, 13, 10, 36, 49, 13, 10, 98, 13, 10] =
      .done (Value.BulkString [97]) 7 ∧
    read_value [] [[36, 49, 13, 10, 97, 13, 10, 36, 49, 13, 10, 98, 13, 10]] =
      .value (Value.BulkString [97]) [] ∧
    ([36, 49, 13, 10, 97, 13, 10, 36, 49, 13, 10, 98, 13, 10] : List Nat).drop 7 =
      [36, 49, 13, 10, 98, 13, 10] ∧
    ([36, 49, 13, 10, 98, 13, 10] : List Nat) ≠ [] := by
  refine ⟨rfl, rfl, rfl, by decide⟩

/-- Claim C3 (counterexample): a Sequence header announcing one element
followed by an empty tail makes decode panic (out-of-bounds index on the
empty sub-slice), not signal Incomplete. -/
theorem C3_empty_tail_counterexample :
    parse_message [42, 49, 13, 10] = .panic ∧
    DecodeOutcome.panic ≠ .incomplete := by
  refine ⟨rfl, ?_⟩
  intro h
  cases h

/-- Claim C3 (amended): decode has four outcomes, not three — `Done`,
`Incomplete`, `Fails`, or a panic.  The empty buffer panics; a sequence
header whose announced elements run past an empty tail panics; but when
the sub-decode is offered a nonempty tail on which it signals
Incomplete, the whole sequence decode signals Incomplete. -/
theorem C3_decode_outcomes :
    parse_message [] = .panic ∧
    (∀ k : Nat, 1 ≤ k → k < 2 ^ 63 →
      parse_message (42 :: (natToDecBytes k ++ [13, 10])) = .panic) ∧
    (∀ (k : Nat) (tail : List Nat), 1 ≤ k → k < 2 ^ 63 →
      parse_message tail = .incomplete →
      parse_message (42 :: (natToDecBytes k ++ [13, 10] ++ tail)) = .incomplete) :=
  ⟨rfl, fun _ h1 h2 => star_header_empty_panic h1 h2,
    fun _ _ h1 h2 ht => star_header_tail_incomplete h1 h2 ht⟩

/-- Claim C3 (witness): the header `*1\r\n` with an empty tail panics,
and with the one-byte tail `$` (an incomplete bulk frame) the whole
decode is Incomplete. -/
theorem C3_outcomes_witness :
    parse_message (42 :: (natToDecBytes 1 ++ [13, 10])) = .panic ∧
    parse_message (42 :: (natToDecBytes 1 ++ [13, 10] ++ [36])) = .incomplete :=
  ⟨C3_decode_outcomes.2.1 1 (by norm_num) (by norm_num),
   C3_decode_outcomes.2.2 1 [36] (by norm_num) (by norm_num) rfl⟩

/-- Claim C4 (code evaluation at the failing input): `PING` with no
arguments is answered with `Error "command not implemented: PING"`, not
`Status "PONG"` — the dispatcher lowercases the command name and then
matches it against the uppercase literal patterns, so no command arm can
ever match. -/
theorem C4_ping_not_pong :
    handle_command (ascii ("PING")) [] [] =
      .reply (Value.Error (ascii ("command not implemented: PING"))) [] ∧
    Value.Error (ascii ("command not implemented: PING")) ≠
      Value.SimpleString (ascii ("PONG")) := by
  refine ⟨rfl, ?_⟩
  intro h
  cases h

/-- Claim C5 (counterexample): a request-shape error is not recoverable.
A non-Sequence request makes `to_command`'s error propagate through the
`?` operator, terminating the connection without any reply, and an empty
Sequence panics on `items.first().unwrap()`. -/
theorem C5_shape_counterexample :
    handle_value (Value.SimpleString [120]) [] = .terminated ("not an array") ∧
    handle_value (Value.Seq []) [] = .panicked ∧
    handle_value (Value.SimpleString [120]) [] ≠
      StepResult.reply (Value.Error (ascii ("not an array"))) [] := by
  refine ⟨rfl, rfl, ?_⟩
  rw [show handle_value (Value.SimpleString [120]) [] =
    StepResult.terminated ("not an array") from rfl]
  intro h
  cases h

/-- Claim C5 (amended): a request-shape error is fatal, not recoverable:
a decoded value that is not a Sequence terminates the connection with the
propagated `not an array` error and no reply is written; an empty
Sequence, or a Sequence whose first element is not a Payload string,
panics. -/
theorem C5_request_shape_fatal :
    (∀ (v : Value) (st : Store), v.isSeq = false →
      handle_value v st = .terminated ("not an array")) ∧
    (∀ st : Store, handle_value (.Seq []) st = .panicked) ∧
    (∀ (first : Value) (rest : List Value) (st : Store), unwrap_bulk first = none →
      handle_value (.Seq (first :: rest)) st = .panicked) := by
  refine ⟨?_, ?_, ?_⟩
  · intro v st hv
    cases v with
    | Null => rfl
    | SimpleString s => rfl
    | Error s => rfl
    | BulkString s => rfl
    | Seq items => cases hv
  · intro st; rfl
  · intro first rest st hf
    simp only [handle_value, to_command, hf]

/-- Claim C5 (witness): concrete instances of the three fatal shapes. -/
theorem C5_shape_witness :
    handle_value (Value.SimpleString [120]) [] = .terminated ("not an array") ∧
    handle_value (Value.Seq []) [] = .panicked ∧
    handle_value (Value.Seq [Value.Null]) [] = .panicked :=
  ⟨C5_request_shape_fatal.1 (Value.SimpleString [120]) [] rfl,
   C5_request_shape_fatal.2.1 [],
   C5_request_shape_fatal.2.2 Value.Null [] [] rfl⟩

/-- Claim C6 (counterexample): `GET` invoked with zero arguments is not
answered with the arity diagnostic `Get requires one argument`; the
reply is the unrelated `command not implemented: GET`. -/
theorem C6_arity_counterexample :
    handle_command (ascii ("GET")) [] [] =
      .reply (Value.Error (ascii ("command not implemented: GET"))) [] ∧
    ascii ("command not implemented: GET") ≠
      ascii ("Get requires one argument") := by
  refine ⟨rfl, by decide⟩

/-- Claim C6 (amended): every command invocation — any name, any
arguments, any store — yields the ErrorMessage
`command not implemented: <name>` with the store unchanged and no panic;
no arity- or type-specific diagnostic is ever produced, because the
lowercased command name can never match the uppercase match patterns. -/
theorem C6_uniform_not_implemented (command : List Nat) (args : List Value)
    (st : Store) :
    handle_command command args st =
      .reply (.Error (ascii ("command not implemented: ") ++ command)) st :=
  handle_command_not_implemented command args st

/-- Claim C7 (counterexample): splitting the valid frame
`*1\r\n$1\r\na\r\n` at offset 4 makes the first portion panic (the
sequence decode indexes into the empty tail), not signal Incomplete. -/
theorem C7_split_counterexample :
    parse_message [42, 49, 13, 10, 36, 49, 13, 10, 97, 13, 10] =
      .done (Value.Seq [Value.BulkString [97]]) 11 ∧
    parse_message (([42, 49, 13, 10, 36, 49, 13, 10, 97, 13, 10] : List Nat).take 4) =
      .panic ∧
    DecodeOutcome.panic ≠ .incomplete := by
  refine ⟨rfl, rfl, ?_⟩
  intro h
  cases h

/-- Claim C7 (amended): incremental delivery holds for bulk-string
frames and interior split offsets: if a `$`-headed buffer decodes to
`Done(v, len(b))`, then for any split `1 ≤ i < len(b)` the first portion
decodes to Incomplete and the reassembled whole decodes to the same
`Done(v, len(b))`.  (Offset 0 panics on the empty buffer, and sequence
frames can panic at element boundaries.) -/
theorem C7_bulk_split (b : List Nat) (v : Value) (i : Nat)
    (hhead : b.head? = some 36) (hdone : parse_message b = .done v b.length)
    (hi1 : 1 ≤ i) (hi2 : i < b.length) (hblen : b.length < 2 ^ 63) :
    parse_message (b.take i) = .incomplete ∧
    parse_message (b.take i ++ b.drop i) = .done v b.length := by
  obtain ⟨t, rfl⟩ : ∃ t, b = 36 :: t := by
    cases b with
    | nil => cases hhead
    | cons x t =>
      obtain rfl : x = 36 := Option.some.inj hhead
      exact ⟨t, rfl⟩
  constructor
  · obtain ⟨i', rfl⟩ : ∃ i', i = i' + 1 := ⟨i - 1, by omega⟩
    have hb : decode_bulk_string (36 :: t) = .done v (36 :: t).length := by
      rw [← parse_message_bulk]; exact hdone
    have hinc := decode_bulk_take_incomplete hblen hb hi1 hi2
    rw [List.take_succ_cons] at hinc
    rw [List.take_succ_cons, parse_message_bulk]
    exact hinc
  · rw [List.take_append_drop]
    exact hdone

/-- Claim C7 (witness): the frame `$1\r\na\r\n` split at offset 3. -/
theorem C7_split_witness :
    parse_message (([36, 49, 13, 10, 97, 13, 10] : List Nat).take 3) = .incomplete ∧
    parse_message (([36, 49, 13, 10, 97, 13, 10] : List Nat).take 3 ++
        ([36, 49, 13, 10, 97, 13, 10] : List Nat).drop 3) =
      .done (Value.BulkString [97]) ([36, 49, 13, 10, 97, 13, 10] : List Nat).length :=
  C7_bulk_split [36, 49, 13, 10, 97, 13, 10] (Value.BulkString [97]) 3 rfl rfl
    (by norm_num) (by norm_num) (by norm_num)

/-- Claim C8: the decode-cursor invariant.  Any successful decode —
`parse_message` at the top level or on the sub-slice handed to a
sequence element, and `decode_bulk_string` itself — returns a
consumed-byte count that never exceeds the length of the buffer slice it
was offered. -/
theorem C8_consumed_le :
    (∀ (b : List Nat) (v : Value) (n : Nat),
      parse_message b = .done v n → n ≤ b.length) ∧
    (∀ (b : List Nat) (v : Value) (n : Nat),
      decode_bulk_string b = .done v n → n ≤ b.length) :=
  ⟨fun _ _ _ h => parse_message_done_le h, fun _ _ _ h => decode_bulk_done_le h⟩

/-- Claim C8 (witness): the frame `$1\r\na\r\n` consumes 7 of its 7
bytes. -/
theorem C8_consumed_witness :
    parse_message [36, 49, 13, 10, 97, 13, 10] = .done (Value.BulkString [97]) 7 ∧
    7 ≤ ([36, 49, 13, 10, 97, 13, 10] : List Nat).length :=
  ⟨rfl, C8_consumed_le.1 [36, 49, 13, 10, 97, 13, 10] (Value.BulkString [97]) 7 rfl⟩

/-- Claim C9: `encode` panics on every Sequence value (modelled as
`none`) and is a total function producing bytes on each of the four
other variants. -/
theorem C9_encode_seq_unsupported :
    (∀ items : List Value, encode (Value.Seq items) = none) ∧
    (∀ v : Value, v.isSeq = false → ∃ bs : List Nat, encode v = some bs) := by
  refine ⟨fun items => rfl, fun v hv => ?_⟩
  cases v with
  | Null => exact ⟨_, rfl⟩
  | SimpleString s => exact ⟨_, rfl⟩
  | Error s => exact ⟨_, rfl⟩
  | BulkString s => exact ⟨_, rfl⟩
  | Seq items => cases hv

/-- Claim C9 (witness): the empty Sequence is rejected and Null
encodes. -/
theorem C9_encode_witness :
    encode (Value.Seq []) = none ∧ ∃ bs : List Nat, encode Value.Null = some bs :=
  ⟨C9_encode_seq_unsupported.1 [], C9_encode_seq_unsupported.2 Value.Null rfl⟩

/-- Claim C10 (counterexample): a buffer that begins with `$-1\r\n` but
has at least one more byte does not decode to Incomplete: the wrapped
unsigned length makes `end_of_bulk_line = 6 ≤ 6` pass, and the reversed
slice `[5..4]` panics. -/
theorem C10_longer_buffer_counterexample :
    parse_message [36, 45, 49, 13, 10, 88] = .panic ∧
    DecodeOutcome.panic ≠ .incomplete := by
  refine ⟨rfl, ?_⟩
  intro h
  cases h

/-- Claim C10 (amended): the decoder never produces the Absence value —
no successfully decoded value contains `Null` anywhere — and the
five-byte buffer that is exactly `$-1\r\n` decodes to Incomplete; longer
buffers beginning with `$-1\r\n` panic instead. -/
theorem C10_no_absence :
    (∀ (b : List Nat) (v : Value) (n : Nat),
      parse_message b = .done v n → valueHasNull v = false) ∧
    parse_message [36, 45, 49, 13, 10] = .incomplete :=
  ⟨fun _ _ _ h => parse_message_done_no_null h, rfl⟩

/-- Claim C10 (witness): the decoded payload `a` contains no Null. -/
theorem C10_no_absence_witness :
    parse_message [36, 49, 13, 10, 97, 13, 10] = .done (Value.BulkString [97]) 7 ∧
    valueHasNull (Value.BulkString [97]) = false :=
  ⟨rfl, C10_no_absence.1 [36, 49, 13, 10, 97, 13, 10] (Value.BulkString [97]) 7 rfl⟩
